import Mathlib

/-!
Verification of the B+ tree index program (`src/bp/b_plus.c`, dump tool
`src/bp/b_print.c`) against its natural-language specification.

The on-disk file is a header record followed by fixed-size node records.
Every offset the program ever seeks to is either `0` (the header), the start
of a node block (`header_size + i * block_size`), `-1` (the `NO_BLOCK`
sentinel, on which `fseek` fails with the position left unchanged), or the
end of file.  The map `header_size + i * block_size ↦ 1 + i`, `0 ↦ 0` is a
bijection on all reachable offsets, so the embedding relabels offsets with
`header_size = block_size = 1`: position `0` is the header, position `1 + i`
the start of block `i`, and all the source's offset arithmetic
(`ftell`, `fseek(…, -block_size, SEEK_CUR)`, `h->root_block = header_size`)
carries over verbatim with both sizes equal to `1`.

C behaviours the program relies on and which are modelled explicitly:
`fseek` to a negative offset fails and leaves the position unchanged;
`fread` at end of file fails and leaves the destination buffer and the
position unchanged (the program ignores all return values of `fseek`,
`fread` and `fwrite` inside `insert_value`'s descent and `node_overflow`);
uninitialized memory (the freshly allocated node buffer `opt->p` and the
local arrays `temp_key` / `temp_block` of `node_overflow`) is modelled by
explicit parameters holding the arrays' initial contents.
-/

namespace BPlus

/-- `#define TREE_ORDER 4` — the order of the B+ tree. -/
def TREE_ORDER : Nat := 4

/-- `#define NO_BLOCK -1L` — value indicating end of path in the tree. -/
def NO_BLOCK : Int := -1

/-- The `status_t` enum of `b_plus.c`. -/
inductive status_t where
  | SUCCESS
  | INV_OPT_PTR
  | INV_HEADER_PTR
  | INV_DATA_PTR
  | E_CREATE_FILE
  | E_OPEN_FILE
  | E_CLOSE_FILE
  | E_WRITE_FILE
  | E_READ_FILE
  | E_MOVE_FILE
  | E_NO_MEMORY
  | E_TREE_EMPTY
  | E_INCOMPATIBLE_VERSION
deriving DecidableEq, Repr

/-- The `node_t` record: leaf flag, used-key count, `TREE_ORDER` key slots,
`TREE_ORDER + 1` child block slots and the parent block reference.  The key
and block lists always keep full length (4 and 5), so slots beyond
`keys_used` carry their stale contents exactly as the C struct does. -/
structure node_t where
  is_leaf : Bool
  keys_used : Nat
  key : List Nat
  block : List Int
  parent_block : Int
deriving DecidableEq, Repr

/-- The `header_t` record.  The `header_size` and `block_size` fields are
both `1` under the offset relabelling and are kept implicit. -/
structure header_t where
  tree_order : Nat
  root_block : Int
deriving DecidableEq, Repr

/-- One open session: the in-memory header `*h`, the header record on disk,
the node records on disk (block `i` starts at relabelled offset `1 + i`),
the in-memory node buffer `*opt->p` and the stream position of `opt->iop`. -/
structure tree_state where
  hdr : header_t
  disk_hdr : header_t
  blocks : List node_t
  buf : node_t
  pos : Int
deriving DecidableEq, Repr

/-! ### File-stream primitives -/

/-- Index of the block starting at the current position, when one exists. -/
def block_index (s : tree_state) : Option Nat :=
  if 1 ≤ s.pos ∧ s.pos - 1 < (s.blocks.length : Int) then some (s.pos - 1).toNat
  else none

/-- `fread(opt->p, h->block_size, 1, opt->iop)` — on success the node at the
current position is loaded into the buffer and the position advances; a
short read (at end of file) leaves buffer and position unchanged. -/
def fread_node (s : tree_state) : tree_state :=
  match block_index s with
  | some i => { s with buf := s.blocks.getD i s.buf, pos := s.pos + 1 }
  | none => s

/-- `fwrite(opt->p, h->block_size, 1, opt->iop)` — writes the buffer at the
current position, extending the file when the position is at end of file. -/
def fwrite_node (s : tree_state) : tree_state :=
  if 1 ≤ s.pos then
    if (s.pos - 1).toNat < s.blocks.length then
      { s with blocks := s.blocks.set (s.pos - 1).toNat s.buf, pos := s.pos + 1 }
    else
      { s with blocks := s.blocks ++ [s.buf], pos := s.pos + 1 }
  else s

/-- `fwrite(h, sizeof(header_t), 1, opt->iop)` at offset `0`. -/
def fwrite_header (s : tree_state) : tree_state :=
  if s.pos = 0 then { s with disk_hdr := s.hdr, pos := 1 } else s

/-- `fseek(opt->iop, off, SEEK_SET)`: fails on a negative offset (notably
`NO_BLOCK`), leaving the position unchanged. -/
def fseek_set (s : tree_state) (off : Int) : tree_state :=
  if off < 0 then s else { s with pos := off }

/-- `fseek(opt->iop, d, SEEK_CUR)`: fails if the resulting offset would be
negative, leaving the position unchanged. -/
def fseek_cur (s : tree_state) (d : Int) : tree_state :=
  if s.pos + d < 0 then s else { s with pos := s.pos + d }

/-- `fseek(opt->iop, 0L, SEEK_END)`. -/
def fseek_end (s : tree_state) : tree_state :=
  { s with pos := 1 + (s.blocks.length : Int) }

/-- `ftell(opt->iop)`. -/
def ftell (s : tree_state) : Int := s.pos

/-! ### Loop helpers mirroring the source's array loops -/

/-- `for (index = hi; index > lo; --index) l[index] = l[index-1];` —
the right-shift loop shared by key and child insertion. -/
def shift_from (d : α) (lo : Nat) : List α → Nat → List α
  | l, 0 => l
  | l, hi + 1 =>
    if lo < hi + 1 then shift_from d lo (l.set (hi + 1) (l.getD hi d)) hi
    else l

/-- `for (index = lo; index < lo + n; ++index) dst[index - off] = src[index];`
— the copy loops of `node_overflow`. -/
def copy_go (d : α) (src : List α) (off : Nat) : List α → Nat → Nat → List α
  | dst, _, 0 => dst
  | dst, lo, n + 1 => copy_go d src off (dst.set (lo - off) (src.getD lo d)) (lo + 1) n

/-- `for (index = lo; index < lo + n; ++index) l[index] = v;` -/
def set_all (v : Int) : List Int → Nat → Nat → List Int
  | l, _, 0 => l
  | l, lo, n + 1 => set_all v (l.set lo v) (lo + 1) n

/-! ### Descent and insertion -/

/-- `for (new_pos = 0; new_pos < keys_used; ++new_pos)
      if (value <= key[new_pos]) break;` —
the smallest index `i < keys_used` with `key[i] ≥ value`, or `keys_used`. -/
def find_new_pos (n : node_t) (value : Nat) : Nat :=
  List.findIdx (fun k => decide (value ≤ k)) (n.key.take n.keys_used)

/-- The shift-insert of `value` at `new_pos` with child reference `child` at
`new_pos + 1` (lines 373–379 for leaf insertion with `child = NO_BLOCK`,
lines 503–509 for separator promotion with `child = right_block`):
`keys_used` is incremented first, then keys and child slots are shifted
right and the new entries stored. -/
def shift_insert (n : node_t) (new_pos : Nat) (value : Nat) (child : Int) : node_t :=
  let ku := n.keys_used + 1
  { n with
    keys_used := ku
    key := (shift_from 0 new_pos n.key (ku - 1)).set new_pos value
    block := (shift_from NO_BLOCK new_pos n.block ku).set (new_pos + 1) child }

/-- Outcome of one iteration of `insert_value`'s descent loop on the node in
the buffer: the branch index is `i = find_new_pos`, then
`key[i] == value` (note: read even when `i = keys_used`, from a stale slot)
means the value exists; else `block[i+1] == NO_BLOCK` means insert here;
else the descent continues at `block[i+1]`. -/
inductive step_result where
  | found
  | insert_here (i : Nat)
  | descend (i : Nat) (r : Int)
deriving DecidableEq, Repr

/-- The branch decision of lines 366–389 of `insert_value`. -/
def insert_step (n : node_t) (value : Nat) : step_result :=
  let i := find_new_pos n value
  if n.key.getD i 0 = value then .found
  else if n.block.getD (i + 1) NO_BLOCK = NO_BLOCK then .insert_here i
  else .descend i (n.block.getD (i + 1) NO_BLOCK)

/-! ### node_overflow -/

/-- The two child-parent-rewrite loops of the root branch (lines 440–447 and
459–466): `for (index = 0; index <= opt->p->keys_used; ++index)` — note the
bound is re-read from the buffer, which the loop body's `fread` overwrites,
so the bound and the `block[index]` slots are those of the last node read. -/
def child_loop (par : Int) : Nat → Nat → tree_state → Option tree_state
  | 0, _, _ => none
  | fuel + 1, idx, s =>
    if idx ≤ s.buf.keys_used then
      let s1 := fseek_set s (s.buf.block.getD idx NO_BLOCK)
      let s2 := fread_node s1
      let s3 := { s2 with buf := { s2.buf with parent_block := par } }
      let s4 := fwrite_node (fseek_cur s3 (-1))
      child_loop par fuel (idx + 1) s4
    else some s

/-- One execution of the non-root arm of `node_overflow`'s loop
(lines 480–514): save the upper keys/children into the temp arrays (only
from index `left_keys` up — indices below keep their previous, initially
uninitialized, contents), rewrite the left portion in place, append the
right portion at end of file, then shift-insert `*temp_key` (slot 0 of the
temp array, never filled by this arm) into the parent together with the new
right child reference.  Returns the updated temp arrays, the state, and
whether the parent now overflows (`keys_used` reached `tree_order`). -/
def split_step (lk rk : Nat) (tk : List Nat) (tb : List Int) (s : tree_state) :
    List Nat × List Int × tree_state × Bool :=
  let ku := s.buf.keys_used
  let tk1 := copy_go 0 s.buf.key 0 tk lk (ku - lk)
  let tb1 := copy_go NO_BLOCK s.buf.block 0 tb lk (ku + 1 - lk)
  let s1 := fseek_cur { s with buf := { s.buf with keys_used := lk } } (-1)
  let s2 := fwrite_node s1
  let s3 := fseek_end s2
  let right := ftell s3
  let b2 : node_t :=
    { s3.buf with
      key := copy_go 0 tk1 1 s3.buf.key 1 rk
      block := copy_go NO_BLOCK tb1 0 s3.buf.block 0 (rk + 1)
      keys_used := rk }
  let s4 := fwrite_node { s3 with buf := b2 }
  let s5 := fread_node (fseek_set s4 b2.parent_block)
  let median := tk1.getD 0 0
  let np := List.findIdx (fun k => decide (median < k)) (s5.buf.key.take s5.buf.keys_used)
  let b3 := shift_insert s5.buf np median right
  let s6 := fwrite_node (fseek_cur { s5 with buf := b3 } (-1))
  (tk1, tb1, s6, decide (s6.hdr.tree_order ≤ b3.keys_used))

/-- The `while (overflow == true)` loop of `node_overflow` (lines 419–515).
`lk`/`rk` are `left_keys`/`right_keys`; `tk`/`tb` are the current contents
of the stack arrays `temp_key[TREE_ORDER]` / `temp_block[TREE_ORDER+1]`,
which persist across iterations and start out uninitialized. -/
def overflow_loop (lk rk : Nat) : Nat → List Nat → List Int → tree_state → Option tree_state
  | 0, _, _, _ => none
  | fuel + 1, tk, tb, s =>
    if s.buf.parent_block = NO_BLOCK then
      -- the root must break (lines 421–479)
      let ku := s.buf.keys_used
      let tk1 := copy_go 0 s.buf.key 0 tk 0 ku
      let tb1 := copy_go NO_BLOCK s.buf.block 0 tb 0 (ku + 1)
      -- write left son
      let b1 : node_t :=
        { s.buf with
          parent_block := 1
          keys_used := lk
          key := copy_go 0 tk1 0 s.buf.key 0 lk
          block := copy_go NO_BLOCK tb1 0 s.buf.block 0 (lk + 1) }
      let s1 := fseek_end { s with buf := b1 }
      let left := ftell s1
      let s2 := fwrite_node s1
      match child_loop left fuel 0 s2 with
      | none => none
      | some s3 =>
        -- write right son (no repositioning: written at the position the
        -- child loop left the stream at)
        let b2 : node_t :=
          { s3.buf with
            keys_used := rk
            key := copy_go 0 tk1 (lk + 1) s3.buf.key (lk + 1) (s.hdr.tree_order - (lk + 1))
            block := copy_go NO_BLOCK tb1 (lk + 1) s3.buf.block (lk + 1) (s.hdr.tree_order - lk) }
        let s4 := { s3 with buf := b2 }
        let right := ftell s4
        let s5 := fwrite_node s4
        match child_loop right fuel 0 s5 with
        | none => none
        | some s6 =>
          -- rewrite the root node
          let s7 := fread_node (fseek_set s6 1)
          let b3 : node_t :=
            { s7.buf with
              keys_used := 1
              parent_block := NO_BLOCK
              key := s7.buf.key.set 0 (tk1.getD lk 0)
              block := (s7.buf.block.set 0 left).set 1 right }
          some (fwrite_node (fseek_cur { s7 with buf := b3 } (-1)))
    else
      -- non-root split (lines 480–514)
      match split_step lk rk tk tb s with
      | (tk1, tb1, s6, cont) =>
        if cont then overflow_loop lk rk fuel tk1 tb1 s6 else some s6

/-- `node_overflow` (lines 401–517): draws the split-size coin `q ∈ {0,1}`
(here a parameter, standing for the `rand()` comparison), computes
`left_keys = (tree_order >> 1) - q` and `right_keys = (tree_order >> 1) + q - 1`
once, and runs the overflow loop with uninitialized temp arrays `tk0`/`tb0`. -/
def node_overflow (fuel : Nat) (q : Nat) (tk0 : List Nat) (tb0 : List Int)
    (s : tree_state) : Option tree_state :=
  overflow_loop (s.hdr.tree_order / 2 - q) (s.hdr.tree_order / 2 + q - 1) fuel tk0 tb0 s

/-! ### insert_value -/

/-- The `while (insert == false)` descent loop of `insert_value`
(lines 362–390).  `none` means the fuel ran out (the C loop not having
terminated within `fuel` iterations); the C function itself always reports
`SUCCESS` from this loop since it ignores all I/O return values. -/
def insert_loop (q : Nat) (tk0 : List Nat) (tb0 : List Int) (value : Nat) :
    Nat → tree_state → Option tree_state
  | 0, _ => none
  | fuel + 1, s =>
    let s1 := fread_node s
    match insert_step s1.buf value with
    | .found => some s1
    | .insert_here i =>
      let s2 := { s1 with buf := shift_insert s1.buf i value NO_BLOCK }
      let s3 := fwrite_node (fseek_cur s2 (-1))
      if s3.buf.keys_used = s3.hdr.tree_order then node_overflow fuel q tk0 tb0 s3
      else some s3
    | .descend _ r => insert_loop q tk0 tb0 value fuel (fseek_set s1 r)

/-- `insert_value` (lines 325–393).  The null-pointer checks on `h` and
`opt` concern the C calling convention and are outside the embedding; the
`value == NULL` check compares the `word_t` value against `0`.  `q`, `tk0`,
`tb0` model the randomness and uninitialized stack memory consumed by a
`node_overflow` call, `fuel` bounds the loops. -/
def insert_value (fuel : Nat) (q : Nat) (tk0 : List Nat) (tb0 : List Int)
    (value : Nat) (s : tree_state) : Option (status_t × tree_state) :=
  if value = 0 then some (.INV_DATA_PTR, s)
  else if TREE_ORDER < s.hdr.tree_order then some (.E_INCOMPATIBLE_VERSION, s)
  else if s.hdr.root_block = NO_BLOCK then
    -- the tree is initially empty: write header with the new root, then
    -- the first node (keys beyond slot 0 keep the buffer's prior contents)
    let sa := fseek_set s 0
    let sb := { sa with hdr := { sa.hdr with root_block := 1 } }
    let sc := fwrite_header sb
    let b : node_t :=
      { sc.buf with
        key := sc.buf.key.set 0 value
        keys_used := 1
        parent_block := NO_BLOCK
        is_leaf := false
        block := set_all NO_BLOCK sc.buf.block 0 (sc.hdr.tree_order + 1) }
    some (.SUCCESS, fwrite_node { sc with buf := b })
  else
    match insert_loop q tk0 tb0 value fuel (fseek_set s s.hdr.root_block) with
    | some s' => some (.SUCCESS, s')
    | none => none

/-! ### open_tree and the dump tool -/

/-- `open_tree` (lines 278–300): opening an existing file reads the stored
header into `*h` without any validation; creating a file truncates it and
writes the in-memory header.  Disk errors are not modelled.  `buf` is the
freshly (re)allocated, uninitialized node buffer. -/
def open_tree (file_exists : Bool) (h : header_t) (disk : header_t)
    (blocks : List node_t) (buf : node_t) : status_t × tree_state :=
  if file_exists then
    (.SUCCESS, { hdr := disk, disk_hdr := disk, blocks := blocks, buf := buf, pos := 1 })
  else
    (.SUCCESS, { hdr := h, disk_hdr := h, blocks := [], buf := buf, pos := 1 })

/-- The leaf/internal tag printed for each block by `print_b_plus_tree`
(`b_print.c` line 188). -/
def print_leaf_tag (n : node_t) : String :=
  if n.is_leaf = true then ">Leaf.\n" else ">Node.\n"

/-! ### Lookup (spec-modelled) -/

/-- Default node used as the (unreachable) fallback of list lookups. -/
def node_default : node_t :=
  { is_leaf := false, keys_used := 0, key := [], block := [], parent_block := -1 }

/-- Result of a lookup per §4.5 of the spec. -/
inductive lookup_result where
  | Found
  | NotFound
  | EmptyTree
deriving DecidableEq, Repr

/-- Modelled from the spec: the repository contains no lookup
implementation — the menu's SEARCH case (`b_plus.c` lines 188–195) only
reads the value and discards it.  §4.5: descend from the root with the
branch rule "smallest index `i` with `keys[i] >= value`"; return `Found` on
an exact match at any node visited; descend into `children[i]` while a
child is present; return `NotFound` at a leaf with no matching key and no
further child to follow.  A reference to a block outside the store cannot
arise from the spec's descent and is treated as no child to follow. -/
def lookup_go (s : tree_state) (value : Nat) : Nat → Int → Option lookup_result
  | 0, _ => none
  | fuel + 1, r =>
    if 1 ≤ r ∧ r - 1 < (s.blocks.length : Int) then
      let n := s.blocks.getD (r - 1).toNat node_default
      let i := List.findIdx (fun k => decide (value ≤ k)) (n.key.take n.keys_used)
      if i < n.keys_used ∧ n.key.getD i 0 = value then some .Found
      else
        let child := n.block.getD i NO_BLOCK
        if child = NO_BLOCK then some .NotFound
        else lookup_go s value fuel child
    else some .NotFound

/-- Modelled from the spec, §4.5: `lookup(value) -> Found | NotFound`, or
`EmptyTree` when invoked before any value has been inserted (header root is
none).  It takes the store and returns only a result, mutating nothing. -/
def lookup_spec (fuel : Nat) (s : tree_state) (value : Nat) : Option lookup_result :=
  if s.disk_hdr.root_block = NO_BLOCK then some .EmptyTree
  else lookup_go s value fuel s.disk_hdr.root_block

/-- The keys held by a node: the populated key slots. -/
def node_keys (n : node_t) : List Nat := n.key.take n.keys_used

/-- All keys stored anywhere in the file, block by block. -/
def store_keys (s : tree_state) : List Nat := (s.blocks.map node_keys).flatten

/-! ### Concrete runs -/

/-- A concrete (benign) content for the uninitialized node buffer: stale key
slots `0` can never match an inserted value, since `insert_value` rejects
`0`; stale child slots are the `NO_BLOCK` sentinel. -/
def g0buf : node_t :=
  { is_leaf := false, keys_used := 0, key := [0, 0, 0, 0],
    block := [-1, -1, -1, -1, -1], parent_block := -1 }

/-- Concrete contents for `node_overflow`'s uninitialized `temp_key`. -/
def tk0g : List Nat := [0, 0, 0, 0]

/-- Concrete contents for `node_overflow`'s uninitialized `temp_block`. -/
def tb0g : List Int := [-1, -1, -1, -1, -1]

/-- The session state right after the menu's CREATE action on a fresh file:
`main` initialized the header with `TREE_ORDER` and `NO_BLOCK` root, and
`open_tree` wrote it to the created file. -/
def init_state (buf : node_t) : tree_state :=
  (open_tree false { tree_order := TREE_ORDER, root_block := NO_BLOCK }
    { tree_order := TREE_ORDER, root_block := NO_BLOCK } [] buf).2

/-- One menu INSERT action with value `v` and split coin `q`, using the
benign uninitialized-memory contents and fuel 50. -/
def do_insert (s : tree_state) (vq : Nat × Nat) : Option (status_t × tree_state) :=
  insert_value 50 vq.2 tk0g tb0g vq.1 s

/-- A sequence of INSERT actions; `none` if any ran out of fuel. -/
def run_ops : List (Nat × Nat) → tree_state → Option (List status_t × tree_state)
  | [], s => some ([], s)
  | vq :: rest, s =>
    match do_insert s vq with
    | none => none
    | some (st, s') =>
      match run_ops rest s' with
      | none => none
      | some (sts, sf) => some (st :: sts, sf)

/-- The state after running `ops` from a freshly created store (the initial
state if fuel ran out; the runs used below are checked not to). -/
def run_state (ops : List (Nat × Nat)) : tree_state :=
  match run_ops ops (init_state g0buf) with
  | some (_, s) => s
  | none => init_state g0buf

/-- The statuses of the inserts of `ops` from a freshly created store. -/
def run_statuses (ops : List (Nat × Nat)) : Option (List status_t) :=
  match run_ops ops (init_state g0buf) with
  | some (sts, _) => some sts
  | none => none

/-- Pure mirror of `insert_value`'s descent loop that performs no write:
`true` exactly when the descent, following the code's own branch rule
(`insert_step`), reaches a node whose branch-position key equals `value`
within `fuel` steps. -/
def descent_finds : Nat → tree_state → Nat → Bool
  | 0, _, _ => false
  | fuel + 1, s, value =>
    match insert_step (fread_node s).buf value with
    | .found => true
    | .insert_here _ => false
    | .descend _ r => descent_finds fuel (fseek_set (fread_node s) r) value

/-- A whole session of INSERT actions, each with its own fuel, split coin
and uninitialized-memory contents; an action whose fuel runs out (the C
loop not having terminated within that bound) is dropped. -/
def insert_session : List (Nat × Nat × Nat × List Nat × List Int) → tree_state → tree_state
  | [], s => s
  | (fuel, v, q, tk, tb) :: rest, s =>
    match insert_value fuel q tk tb v s with
    | some (_, s') => insert_session rest s'
    | none => insert_session rest s

/-- All node records on disk carry a `false` leaf flag, and so does the
in-memory buffer. -/
def clean_state (s : tree_state) : Prop :=
  (∀ b ∈ s.blocks, b.is_leaf = false) ∧ s.buf.is_leaf = false

/-- Invariant maintained across whole-session inserts: every stored node
has a `false` leaf flag, and once a root exists the buffer does too (before
the first insert the buffer is uninitialized, but the first insert
assigns `is_leaf = false` at root creation, line 351). -/
def leaf_flags_inv (s : tree_state) : Prop :=
  (∀ b ∈ s.blocks, b.is_leaf = false) ∧
    (s.hdr.root_block = NO_BLOCK ∨ s.buf.is_leaf = false)

/-! ## Basic facts about the stream primitives -/

@[simp] theorem fseek_set_blocks (s : tree_state) (o : Int) : (fseek_set s o).blocks = s.blocks := by
  unfold fseek_set; split <;> rfl

@[simp] theorem fseek_set_hdr (s : tree_state) (o : Int) : (fseek_set s o).hdr = s.hdr := by
  unfold fseek_set; split <;> rfl

@[simp] theorem fseek_set_disk_hdr (s : tree_state) (o : Int) : (fseek_set s o).disk_hdr = s.disk_hdr := by
  unfold fseek_set; split <;> rfl

@[simp] theorem fseek_set_buf (s : tree_state) (o : Int) : (fseek_set s o).buf = s.buf := by
  unfold fseek_set; split <;> rfl

@[simp] theorem fseek_cur_blocks (s : tree_state) (d : Int) : (fseek_cur s d).blocks = s.blocks := by
  unfold fseek_cur; split <;> rfl

@[simp] theorem fseek_cur_hdr (s : tree_state) (d : Int) : (fseek_cur s d).hdr = s.hdr := by
  unfold fseek_cur; split <;> rfl

@[simp] theorem fseek_cur_disk_hdr (s : tree_state) (d : Int) : (fseek_cur s d).disk_hdr = s.disk_hdr := by
  unfold fseek_cur; split <;> rfl

@[simp] theorem fseek_cur_buf (s : tree_state) (d : Int) : (fseek_cur s d).buf = s.buf := by
  unfold fseek_cur; split <;> rfl

@[simp] theorem fread_node_blocks (s : tree_state) : (fread_node s).blocks = s.blocks := by
  unfold fread_node; rcases block_index s <;> rfl

@[simp] theorem fread_node_hdr (s : tree_state) : (fread_node s).hdr = s.hdr := by
  unfold fread_node; rcases block_index s <;> rfl

@[simp] theorem fread_node_disk_hdr (s : tree_state) : (fread_node s).disk_hdr = s.disk_hdr := by
  unfold fread_node; rcases block_index s <;> rfl

@[simp] theorem fwrite_node_hdr (s : tree_state) : (fwrite_node s).hdr = s.hdr := by
  unfold fwrite_node; split <;> [skip; rfl]; split <;> rfl

@[simp] theorem fwrite_node_disk_hdr (s : tree_state) : (fwrite_node s).disk_hdr = s.disk_hdr := by
  unfold fwrite_node; split <;> [skip; rfl]; split <;> rfl

@[simp] theorem fwrite_node_buf (s : tree_state) : (fwrite_node s).buf = s.buf := by
  unfold fwrite_node; split <;> [skip; rfl]; split <;> rfl

/-! ## C9 — insert of the in-range value 0 is rejected as a null pointer -/

/-- C9: for every tree state, split coin, uninitialized-memory contents and
fuel, `insert_value` called with the value `0` — which lies inside the
documented accepted range 0..65535 — trips the `value == NULL` null-pointer
check (a `word_t` compared against `NULL`, line 334) and returns
`INV_DATA_PTR`, leaving the in-memory header, the on-disk header and the
store contents (the whole session state) unchanged. -/
theorem insert_zero_rejected (fuel q : Nat) (tk : List Nat) (tb : List Int)
    (s : tree_state) :
    insert_value fuel q tk tb 0 s = some (.INV_DATA_PTR, s) := by
  simp [insert_value]

/-! ## C8 — order compatibility check -/

/-- C8 (amended): a stored tree order strictly greater than the engine's
compiled order `TREE_ORDER` makes `insert_value` fail with
`E_INCOMPATIBLE_VERSION` before any node record is read, the whole session
state being returned unchanged.  (The claim's remaining parts are refuted
by `smaller_order_accepted`: a smaller stored order is not rejected, and
`open_tree` itself performs no order check at all.) -/
theorem larger_order_rejected_at_insert (fuel q : Nat) (tk : List Nat) (tb : List Int)
    (value : Nat) (s : tree_state) (hv : value ≠ 0)
    (hord : TREE_ORDER < s.hdr.tree_order) :
    insert_value fuel q tk tb value s = some (.E_INCOMPATIBLE_VERSION, s) := by
  unfold insert_value
  rw [if_neg hv, if_pos hord]

/-- Witness for `larger_order_rejected_at_insert`: a store whose header
declares order 5 against the compiled order 4. -/
theorem larger_order_rejected_at_insert_witness :
    insert_value 10 0 tk0g tb0g 7
        { hdr := { tree_order := 5, root_block := 1 },
          disk_hdr := { tree_order := 5, root_block := 1 },
          blocks := [], buf := g0buf, pos := 1 } =
      some (.E_INCOMPATIBLE_VERSION,
        { hdr := { tree_order := 5, root_block := 1 },
          disk_hdr := { tree_order := 5, root_block := 1 },
          blocks := [], buf := g0buf, pos := 1 }) :=
  larger_order_rejected_at_insert 10 0 tk0g tb0g 7 _ (by decide) (by decide)

/-- C8 (counterexample): a store whose stored order (3) differs from the
engine's configured order (4) is opened by `open_tree` without any
`IncompatibleFormat` failure, and a subsequent insert proceeds normally
(returns `SUCCESS` and writes a node record), because line 336 only rejects
orders *greater* than `TREE_ORDER` — refuting the claim for the
smaller-order direction. -/
theorem smaller_order_accepted :
    (open_tree true { tree_order := 4, root_block := NO_BLOCK }
        { tree_order := 3, root_block := NO_BLOCK } [] g0buf).1 = .SUCCESS ∧
    (3 : Nat) ≠ 4 ∧
    ((insert_value 10 0 tk0g tb0g 7
        (open_tree true { tree_order := 4, root_block := NO_BLOCK }
          { tree_order := 3, root_block := NO_BLOCK } [] g0buf).2).map
        (fun r => (r.1, r.2.blocks.length))) = some (.SUCCESS, 1) := by
  decide

/-! ## C3 — which child the descent continues into -/

/-- C3 (counterexample): in the tree built by inserting 10, 20, 30, 40 into
a fresh store (root split already performed), the descent step for value 20
at the root continues into child slot 1 (block reference 3, the right son)
although the branch index is `i = 0` and `children[0]` is block reference 2
(the left son, which is where the keys `< keys[0] = 30` — including the
stored key 20 — actually live).  The descent therefore does not continue
into `children[i]`. -/
theorem descent_not_into_children_i :
    insert_step ((run_state [(10,0),(20,0),(30,0),(40,0)]).blocks.getD 0 node_default) 20 =
      .descend 0 3 ∧
    find_new_pos ((run_state [(10,0),(20,0),(30,0),(40,0)]).blocks.getD 0 node_default) 20 = 0 ∧
    ((run_state [(10,0),(20,0),(30,0),(40,0)]).blocks.getD 0 node_default).block.getD 0 NO_BLOCK
      = 2 ∧
    (2 : Int) ≠ 3 ∧
    20 ∈ node_keys ((run_state [(10,0),(20,0),(30,0),(40,0)]).blocks.getD 1 node_default) := by
  decide

/-- C3 (amended): at every step of the descent performed by `insert_value`,
with `i` the smallest index such that `keys[i] ≥ value` (`i = keys_used` if
none), when the descent continues it continues into `children[i + 1]` — one
slot to the right of what the claim (and invariant 2's layout) prescribes —
and it does so exactly when the branch-position key differs from `value`
and `children[i + 1]` is not the `NO_BLOCK` sentinel. -/
theorem descent_into_children_succ (fuel q : Nat) (tk : List Nat) (tb : List Int)
    (value : Nat) (s : tree_state) (i : Nat) (r : Int)
    (h : insert_step (fread_node s).buf value = .descend i r) :
    insert_loop q tk tb value (fuel + 1) s =
      insert_loop q tk tb value fuel (fseek_set (fread_node s) r) ∧
    i = find_new_pos (fread_node s).buf value ∧
    r = (fread_node s).buf.block.getD (find_new_pos (fread_node s).buf value + 1) NO_BLOCK ∧
    r ≠ NO_BLOCK := by
  refine ⟨?_, ?_⟩
  · rw [insert_loop, h]
  · simp only [insert_step] at h
    split at h
    · cases h
    · split at h
      · cases h
      · next hne =>
        cases h
        exact ⟨rfl, rfl, hne⟩

/-- Witness for `descent_into_children_succ` at the root of the tree built
by inserting 10, 20, 30, 40, descending for value 25. -/
theorem descent_into_children_succ_witness :
    insert_loop 0 tk0g tb0g 25 11 (fseek_set (run_state [(10,0),(20,0),(30,0),(40,0)]) 1) =
      insert_loop 0 tk0g tb0g 25 10
        (fseek_set (fread_node (fseek_set (run_state [(10,0),(20,0),(30,0),(40,0)]) 1)) 3) ∧
    (3 : Int) ≠ NO_BLOCK :=
  ⟨(descent_into_children_succ 10 0 tk0g tb0g 25
      (fseek_set (run_state [(10,0),(20,0),(30,0),(40,0)]) 1) 0 3 (by decide)).1,
   (descent_into_children_succ 10 0 tk0g tb0g 25
      (fseek_set (run_state [(10,0),(20,0),(30,0),(40,0)]) 1) 0 3 (by decide)).2.2.2⟩

/-! ## C1 — lookup after a sequence of distinct inserts -/

/-- C1 (code evaluated at the failing input): inserting the distinct
nonzero values 10, 20, 30, 40, 25 into a freshly created store all returns
`SUCCESS`, yet the spec's lookup (§4.5 branch rule, descending
`children[i]`) returns `NotFound` for the inserted value 25: the code's
descent follows `children[i + 1]`, so insert placed 25 in the right son
(block 2) of the root although 25 is smaller than the separator key 30.
(`lookup_spec` is a pure function of the store, so lookup mutating nothing
holds by construction; the `Found for every inserted value` part is what
fails.) -/
theorem inserted_key_not_found :
    run_statuses [(10,0),(20,0),(30,0),(40,0),(25,0)] =
      some [.SUCCESS, .SUCCESS, .SUCCESS, .SUCCESS, .SUCCESS] ∧
    lookup_spec 20 (run_state [(10,0),(20,0),(30,0),(40,0),(25,0)]) 25 =
      some .NotFound ∧
    25 ∈ node_keys ((run_state [(10,0),(20,0),(30,0),(40,0),(25,0)]).blocks.getD 2 node_default) := by
  decide

/-! ## C2 — inserting an already-present value -/

/-- C2 (counterexample): after inserting 10, 20, 30, 40 into a fresh store,
the value 20 is present in the tree (in the left son), yet inserting 20
again both mutates the serialized tree — the block records change, 20 being
inserted a second time into the right son — and reports plain `SUCCESS`
(the `status_t` enum has no distinct `AlreadyPresent` value at all).  The
descent cannot revisit 20's node because it follows `children[i + 1]`. -/
theorem reinsert_present_mutates :
    20 ∈ store_keys (run_state [(10,0),(20,0),(30,0),(40,0)]) ∧
    run_statuses [(10,0),(20,0),(30,0),(40,0),(20,0)] =
      some [.SUCCESS, .SUCCESS, .SUCCESS, .SUCCESS, .SUCCESS] ∧
    (run_state [(10,0),(20,0),(30,0),(40,0),(20,0)]).blocks ≠
      (run_state [(10,0),(20,0),(30,0),(40,0)]).blocks ∧
    node_keys ((run_state [(10,0),(20,0),(30,0),(40,0),(20,0)]).blocks.getD 2 node_default) =
      [20, 40] := by
  decide

/-- Helper for the amended C2: when the pure mirror of the descent reports
that the branch-position key equals `value`, `insert_value`'s loop stops at
that node having performed no write: the resulting state carries the same
node records, on-disk header and in-memory header. -/
theorem insert_loop_of_descent_finds (q : Nat) (tk : List Nat) (tb : List Int) (value : Nat) :
    ∀ (fuel : Nat) (s : tree_state), descent_finds fuel s value = true →
      ∃ s', insert_loop q tk tb value fuel s = some s' ∧
        s'.blocks = s.blocks ∧ s'.disk_hdr = s.disk_hdr ∧ s'.hdr = s.hdr := by
  intro fuel
  induction fuel with
  | zero => intro s h; simp [descent_finds] at h
  | succ n ih =>
    intro s h
    rw [descent_finds] at h
    rw [insert_loop]
    cases hstep : insert_step (fread_node s).buf value with
    | found =>
      exact ⟨fread_node s, rfl, by simp, by simp, by simp⟩
    | insert_here i => rw [hstep] at h; simp at h
    | descend i r =>
      rw [hstep] at h
      obtain ⟨s', h1, h2, h3, h4⟩ := ih (fseek_set (fread_node s) r) (by simpa using h)
      exact ⟨s', h1, by simpa using h2, by simpa using h3, by simpa using h4⟩

/-- C2 (amended): if the descent — following the code's own branch rule,
`children[i + 1]` — reaches a node whose branch-position key equals
`value`, then `insert_value` returns `SUCCESS` (there is no distinct
`AlreadyPresent` status) having performed no mutation: the on-disk header
and every node record are unchanged.  (By `reinsert_present_mutates` this
cannot be strengthened to every value present somewhere in the tree.) -/
theorem insert_found_in_descent_no_mutation (fuel q : Nat) (tk : List Nat) (tb : List Int)
    (value : Nat) (s : tree_state) (hv : value ≠ 0)
    (hord : ¬ TREE_ORDER < s.hdr.tree_order) (hroot : s.hdr.root_block ≠ NO_BLOCK)
    (hfind : descent_finds fuel (fseek_set s s.hdr.root_block) value = true) :
    (insert_value fuel q tk tb value s).map (fun r => (r.1, r.2.disk_hdr, r.2.blocks)) =
      some (.SUCCESS, s.disk_hdr, s.blocks) := by
  obtain ⟨s', h1, h2, h3, _⟩ :=
    insert_loop_of_descent_finds q tk tb value fuel (fseek_set s s.hdr.root_block) hfind
  unfold insert_value
  rw [if_neg hv, if_neg hord, if_neg hroot, h1]
  simp [h2, h3]

/-- Witness for `insert_found_in_descent_no_mutation`: re-inserting 30 —
which sits at the branch position of the root — into the tree built from
10, 20, 30, 40 leaves the serialized file unchanged. -/
theorem insert_found_in_descent_no_mutation_witness :
    (insert_value 10 0 tk0g tb0g 30 (run_state [(10,0),(20,0),(30,0),(40,0)])).map
        (fun r => (r.1, r.2.disk_hdr, r.2.blocks)) =
      some (.SUCCESS, (run_state [(10,0),(20,0),(30,0),(40,0)]).disk_hdr,
        (run_state [(10,0),(20,0),(30,0),(40,0)]).blocks) :=
  insert_found_in_descent_no_mutation 10 0 tk0g tb0g 30
    (run_state [(10,0),(20,0),(30,0),(40,0)]) (by decide) (by decide) (by decide) (by decide)

/-! ## C7 — first insert into an empty store -/

/-- Helper: a list of length 4 is a four-element list. -/
theorem list_len4 {α : Type _} {l : List α} (h : l.length = 4) :
    ∃ a b c d, l = [a, b, c, d] := by
  rcases l with _ | ⟨a, _ | ⟨b, _ | ⟨c, _ | ⟨d, _ | ⟨e, t⟩⟩⟩⟩⟩ <;> simp at h
  exact ⟨a, b, c, d, rfl⟩

/-- Helper: a list of length 5 is a five-element list. -/
theorem list_len5 {α : Type _} {l : List α} (h : l.length = 5) :
    ∃ a b c d e, l = [a, b, c, d, e] := by
  rcases l with _ | ⟨a, _ | ⟨b, _ | ⟨c, _ | ⟨d, _ | ⟨e, _ | ⟨f, t⟩⟩⟩⟩⟩⟩ <;> simp at h
  exact ⟨a, b, c, d, e, rfl⟩

/-- C7: the first insert into an empty store (header root is `NO_BLOCK`,
no node records yet, the node buffer freshly allocated with 4 key slots and
5 child slots of arbitrary content) writes the header with the new root
reference (relabelled offset 1) and appends a single node holding exactly
the inserted value (`node_keys = [value]`), all `TREE_ORDER + 1` child
slots `NO_BLOCK` and parent `NO_BLOCK` — structurally a leaf, though its
`is_leaf` flag is assigned `false` (line 351; see the C10 theorem). -/
theorem first_insert_creates_root (fuel q : Nat) (tk : List Nat) (tb : List Int)
    (value : Nat) (s : tree_state) (hv : value ≠ 0)
    (hhdr : s.hdr = { tree_order := 4, root_block := NO_BLOCK })
    (hblocks : s.blocks = [])
    (hkey : s.buf.key.length = 4) (hblk : s.buf.block.length = 5) :
    insert_value fuel q tk tb value s =
      some (.SUCCESS,
        { hdr := { tree_order := 4, root_block := 1 },
          disk_hdr := { tree_order := 4, root_block := 1 },
          blocks := [{ is_leaf := false, keys_used := 1, key := s.buf.key.set 0 value,
                       block := [-1, -1, -1, -1, -1], parent_block := NO_BLOCK }],
          buf := { is_leaf := false, keys_used := 1, key := s.buf.key.set 0 value,
                   block := [-1, -1, -1, -1, -1], parent_block := NO_BLOCK },
          pos := 2 }) ∧
    node_keys { is_leaf := false, keys_used := 1, key := s.buf.key.set 0 value,
                block := [-1, -1, -1, -1, -1], parent_block := NO_BLOCK } = [value] := by
  obtain ⟨hdr, dh, bl, buf, pos⟩ := s
  obtain ⟨il, ku, key, blk, pb⟩ := buf
  simp only [tree_state.mk.injEq] at hhdr hblocks ⊢
  subst hhdr hblocks
  simp only at hkey hblk
  obtain ⟨k0, k1, k2, k3, rfl⟩ := list_len4 hkey
  obtain ⟨b0, b1, b2, b3, b4, rfl⟩ := list_len5 hblk
  unfold insert_value
  rw [if_neg hv]
  norm_num [TREE_ORDER, NO_BLOCK, fseek_set, fwrite_header, fwrite_node, set_all, node_keys]

/-- Witness for `first_insert_creates_root`: the first insert of 10 on a
freshly created store. -/
theorem first_insert_creates_root_witness :
    insert_value 50 0 tk0g tb0g 10 (init_state g0buf) =
      some (.SUCCESS,
        { hdr := { tree_order := 4, root_block := 1 },
          disk_hdr := { tree_order := 4, root_block := 1 },
          blocks := [{ is_leaf := false, keys_used := 1, key := (init_state g0buf).buf.key.set 0 10,
                       block := [-1, -1, -1, -1, -1], parent_block := NO_BLOCK }],
          buf := { is_leaf := false, keys_used := 1, key := (init_state g0buf).buf.key.set 0 10,
                   block := [-1, -1, -1, -1, -1], parent_block := NO_BLOCK },
          pos := 2 }) ∧
    node_keys { is_leaf := false, keys_used := 1, key := (init_state g0buf).buf.key.set 0 10,
                block := [-1, -1, -1, -1, -1], parent_block := NO_BLOCK } = [10] :=
  first_insert_creates_root 50 0 tk0g tb0g 10 (init_state g0buf)
    (by decide) (by decide) (by decide) (by decide) (by decide)

/-! ## C10 — the leaf flag is never true on disk -/

@[simp] theorem fseek_end_blocks (s : tree_state) : (fseek_end s).blocks = s.blocks := rfl

@[simp] theorem fseek_end_buf (s : tree_state) : (fseek_end s).buf = s.buf := rfl

@[simp] theorem fseek_end_hdr (s : tree_state) : (fseek_end s).hdr = s.hdr := rfl

@[simp] theorem fseek_end_disk_hdr (s : tree_state) : (fseek_end s).disk_hdr = s.disk_hdr := rfl

@[simp] theorem fwrite_header_blocks (s : tree_state) : (fwrite_header s).blocks = s.blocks := by
  unfold fwrite_header; split <;> rfl

@[simp] theorem fwrite_header_buf (s : tree_state) : (fwrite_header s).buf = s.buf := by
  unfold fwrite_header; split <;> rfl

@[simp] theorem shift_insert_is_leaf (n : node_t) (p v : Nat) (c : Int) :
    (shift_insert n p v c).is_leaf = n.is_leaf := rfl

/-- Helper: a successful `block_index` is in bounds. -/
theorem block_index_lt {s : tree_state} {i : Nat} (h : block_index s = some i) :
    i < s.blocks.length := by
  unfold block_index at h
  split at h
  · next hc =>
    injection h with h'
    subst h'
    omega
  · cases h

/-- Reading a node preserves cleanliness: the loaded record comes from the
store, whose records are all clean. -/
theorem fread_node_clean {s : tree_state} (h : clean_state s) : clean_state (fread_node s) := by
  obtain ⟨h1, h2⟩ := h
  unfold fread_node
  cases hbi : block_index s with
  | none => exact ⟨h1, h2⟩
  | some i =>
    refine ⟨h1, ?_⟩
    have hlt : i < s.blocks.length := block_index_lt hbi
    show (s.blocks.getD i s.buf).is_leaf = false
    rw [List.getD_eq_getElem _ _ hlt]
    exact h1 _ (List.getElem_mem hlt)

/-- Writing the (clean) buffer preserves cleanliness of the store. -/
theorem fwrite_node_clean {s : tree_state} (h : clean_state s) : clean_state (fwrite_node s) := by
  obtain ⟨h1, h2⟩ := h
  unfold fwrite_node
  split
  · split
    · refine ⟨fun b hb => ?_, h2⟩
      rcases List.mem_or_eq_of_mem_set hb with hb' | rfl
      · exact h1 b hb'
      · exact h2
    · refine ⟨fun b hb => ?_, h2⟩
      rcases List.mem_append.1 hb with hb' | hb'
      · exact h1 b hb'
      · rw [List.mem_singleton.1 hb']; exact h2
  · exact ⟨h1, h2⟩

theorem fseek_set_clean {s : tree_state} (o : Int) (h : clean_state s) :
    clean_state (fseek_set s o) := by
  unfold clean_state at h ⊢; simpa using h

theorem fseek_cur_clean {s : tree_state} (d : Int) (h : clean_state s) :
    clean_state (fseek_cur s d) := by
  unfold clean_state at h ⊢; simpa using h

theorem fseek_end_clean {s : tree_state} (h : clean_state s) :
    clean_state (fseek_end s) := ⟨h.1, h.2⟩

/-- Replacing the buffer with a node of the same leaf flag preserves
cleanliness. -/
theorem clean_state_set_buf {s : tree_state} {b : node_t} (h : clean_state s)
    (hb : b.is_leaf = s.buf.is_leaf) : clean_state { s with buf := b } := by
  refine ⟨h.1, ?_⟩
  show b.is_leaf = false
  rw [hb]
  exact h.2

/-- The child-parent-rewrite loop of the root split preserves cleanliness. -/
theorem child_loop_clean (par : Int) :
    ∀ (fuel idx : Nat) (s s' : tree_state), clean_state s →
      child_loop par fuel idx s = some s' → clean_state s' := by
  intro fuel
  induction fuel with
  | zero => intro idx s s' _ h; cases h
  | succ n ih =>
    intro idx s s' hc h
    rw [child_loop] at h
    split at h
    · refine ih (idx + 1) _ s' ?_ h
      apply fwrite_node_clean
      apply fseek_cur_clean
      have h2 := fread_node_clean (fseek_set_clean (s.buf.block.getD idx NO_BLOCK) hc)
      exact ⟨h2.1, h2.2⟩
    · injection h with h'; subst h'; exact hc

/-- A non-root split step preserves cleanliness (the leaf flag of every
record written comes from the clean buffer or a clean stored record). -/
theorem split_step_clean (lk rk : Nat) (tk : List Nat) (tb : List Int)
    {s : tree_state} (h : clean_state s) :
    clean_state (split_step lk rk tk tb s).2.2.1 := by
  apply fwrite_node_clean
  apply fseek_cur_clean
  refine clean_state_set_buf ?_ rfl
  apply fread_node_clean
  apply fseek_set_clean
  apply fwrite_node_clean
  refine clean_state_set_buf ?_ rfl
  apply fseek_end_clean
  apply fwrite_node_clean
  apply fseek_cur_clean
  refine clean_state_set_buf ?_ rfl
  exact h

/-- The overflow loop preserves cleanliness. -/
theorem overflow_loop_clean (lk rk : Nat) :
    ∀ (fuel : Nat) (tk : List Nat) (tb : List Int) (s s' : tree_state), clean_state s →
      overflow_loop lk rk fuel tk tb s = some s' → clean_state s' := by
  intro fuel
  induction fuel with
  | zero => intro tk tb s s' _ h; cases h
  | succ n ih =>
    intro tk tb s s' hc h
    rw [overflow_loop] at h
    split at h
    · -- root branch
      try simp only [] at h
      split at h
      · exact Option.noConfusion h
      · next s3 hcl1 =>
        have hc3 : clean_state s3 := by
          refine child_loop_clean _ n 0 _ s3 ?_ hcl1
          apply fwrite_node_clean
          apply fseek_end_clean
          exact clean_state_set_buf hc rfl
        try simp only [] at h
        split at h
        · exact Option.noConfusion h
        · next s6 hcl2 =>
          have hc6 : clean_state s6 := by
            refine child_loop_clean _ n 0 _ s6 ?_ hcl2
            apply fwrite_node_clean
            exact clean_state_set_buf hc3 rfl
          injection h with h'
          subst h'
          apply fwrite_node_clean
          apply fseek_cur_clean
          refine clean_state_set_buf ?_ rfl
          apply fread_node_clean
          apply fseek_set_clean
          exact hc6
    · -- non-root branch
      rcases hsp : split_step lk rk tk tb s with ⟨tk1, tb1, s6, cont⟩
      rw [hsp] at h
      have hc6 : clean_state s6 := by
        have := split_step_clean lk rk tk tb hc
        rw [hsp] at this
        exact this
      try simp only [] at h
      by_cases hcont : cont = true
      · rw [if_pos hcont] at h
        exact ih tk1 tb1 s6 s' hc6 h
      · rw [if_neg hcont] at h
        injection h with h'
        subst h'
        exact hc6

/-- `node_overflow` preserves cleanliness. -/
theorem node_overflow_clean (fuel q : Nat) (tk : List Nat) (tb : List Int)
    {s s' : tree_state} (hc : clean_state s) (h : node_overflow fuel q tk tb s = some s') :
    clean_state s' :=
  overflow_loop_clean _ _ fuel tk tb s s' hc h

/-- `insert_value`'s descent loop preserves cleanliness. -/
theorem insert_loop_clean (q : Nat) (tk : List Nat) (tb : List Int) (value : Nat) :
    ∀ (fuel : Nat) (s s' : tree_state), clean_state s →
      insert_loop q tk tb value fuel s = some s' → clean_state s' := by
  intro fuel
  induction fuel with
  | zero => intro s s' _ h; cases h
  | succ n ih =>
    intro s s' hc h
    rw [insert_loop] at h
    have hcr : clean_state (fread_node s) := fread_node_clean hc
    cases hstep : insert_step (fread_node s).buf value with
    | found =>
      rw [hstep] at h
      injection h with h'
      subst h'
      exact hcr
    | insert_here i =>
      rw [hstep] at h
      try simp only [] at h
      have hc3 : clean_state (fwrite_node (fseek_cur
          { fread_node s with buf := shift_insert (fread_node s).buf i value NO_BLOCK } (-1))) := by
        apply fwrite_node_clean
        apply fseek_cur_clean
        exact ⟨hcr.1, hcr.2⟩
      split at h
      · exact node_overflow_clean n q tk tb hc3 h
      · injection h with h'
        subst h'
        exact hc3
    | descend i r =>
      rw [hstep] at h
      exact ih (fseek_set (fread_node s) r) s' (fseek_set_clean r hcr) h

/-- One `insert_value` call preserves the session leaf-flag invariant. -/
theorem insert_value_leaf_flags (fuel q : Nat) (tk : List Nat) (tb : List Int)
    (value : Nat) {s : tree_state} {st : status_t} {s' : tree_state}
    (hi : leaf_flags_inv s) (h : insert_value fuel q tk tb value s = some (st, s')) :
    leaf_flags_inv s' := by
  obtain ⟨h1, h2⟩ := hi
  unfold insert_value at h
  split at h
  · simp only [Option.some.injEq, Prod.mk.injEq] at h
    obtain ⟨-, hs'⟩ := h
    subst hs'
    exact ⟨h1, h2⟩
  · split at h
    · simp only [Option.some.injEq, Prod.mk.injEq] at h
      obtain ⟨-, hs'⟩ := h
      subst hs'
      exact ⟨h1, h2⟩
    · split at h
      · -- first-root creation: the node written carries is_leaf = false
        simp only [Option.some.injEq, Prod.mk.injEq] at h
        obtain ⟨-, hs'⟩ := h
        subst hs'
        refine ⟨(fwrite_node_clean (And.intro ?_ rfl)).1, Or.inr (by simp)⟩
        intro b hb
        apply h1
        simpa using hb
      · -- descent: the root exists, so the buffer is clean by the invariant
        next hroot =>
        have h2' : s.buf.is_leaf = false := by
          rcases h2 with h2 | h2
          · exact absurd h2 hroot
          · exact h2
        rcases hl : insert_loop q tk tb value fuel (fseek_set s s.hdr.root_block) with _ | s1
        · rw [hl] at h; cases h
        · rw [hl] at h
          simp only [Option.some.injEq, Prod.mk.injEq] at h
          obtain ⟨-, hs'⟩ := h
          subst hs'
          have := insert_loop_clean q tk tb value fuel _ s1
            (fseek_set_clean s.hdr.root_block ⟨h1, h2'⟩) hl
          exact ⟨this.1, Or.inr this.2⟩

/-- A whole session preserves the leaf-flag invariant. -/
theorem insert_session_leaf_flags :
    ∀ (ops : List (Nat × Nat × Nat × List Nat × List Int)) (s : tree_state),
      leaf_flags_inv s → leaf_flags_inv (insert_session ops s)
  | [], s, hi => hi
  | (fuel, v, q, tk, tb) :: rest, s, hi => by
    rw [insert_session]
    rcases h : insert_value fuel q tk tb v s with _ | ⟨st, s'⟩
    · exact insert_session_leaf_flags rest s hi
    · exact insert_session_leaf_flags rest s' (insert_value_leaf_flags fuel q tk tb v hi h)

/-- C10: over any session of inserts on a freshly created store — any
values, split coins, uninitialized-memory contents and loop bounds — every
node record ever written to the store has `is_leaf = false`: the flag is
assigned only once, `false`, at first-root creation (line 351), and no
structural mutation ever sets it to `true`.  Consequently the dump tool
prints `>Node.` and never `>Leaf.` for every block of a tree built by this
program. -/
theorem all_written_nodes_nonleaf (ops : List (Nat × Nat × Nat × List Nat × List Int))
    (buf0 : node_t) (b : node_t)
    (hb : b ∈ (insert_session ops (init_state buf0)).blocks) :
    b.is_leaf = false ∧ print_leaf_tag b = ">Node.\n" := by
  have hinv : leaf_flags_inv (init_state buf0) := by
    constructor
    · intro c hc
      simp [init_state, open_tree] at hc
    · exact Or.inl rfl
  have hfin := insert_session_leaf_flags ops (init_state buf0) hinv
  have hleaf : b.is_leaf = false := hfin.1 b hb
  refine ⟨hleaf, ?_⟩
  unfold print_leaf_tag
  rw [hleaf]
  rfl

/-- Witness for `all_written_nodes_nonleaf`: the root block of the tree
built by inserting 10, 20, 30 with an adversarial uninitialized buffer
whose stale leaf flag is `true`. -/
theorem all_written_nodes_nonleaf_witness :
    (((insert_session [(50, 10, 0, tk0g, tb0g), (50, 20, 0, tk0g, tb0g), (50, 30, 0, tk0g, tb0g)]
        (init_state { g0buf with is_leaf := true })).blocks.getD 0 node_default).is_leaf = false ∧
     print_leaf_tag ((insert_session [(50, 10, 0, tk0g, tb0g), (50, 20, 0, tk0g, tb0g), (50, 30, 0, tk0g, tb0g)]
        (init_state { g0buf with is_leaf := true })).blocks.getD 0 node_default) = ">Node.\n") :=
  all_written_nodes_nonleaf
    [(50, 10, 0, tk0g, tb0g), (50, 20, 0, tk0g, tb0g), (50, 30, 0, tk0g, tb0g)]
    { g0buf with is_leaf := true } _ (by decide)

/-! ## C4 — parent references of children moved by a non-root split -/

/-- C4 (counterexample): inserting 10, 20, 30, 40, 5, 6, 7, 4 and then 3
(the last with the `left = 1 / right = 2` split-size coin) ends with a
non-root split that appends the new right node as block 5 (block reference
6): it holds the real child references 4 and 5 in its populated child slots.
Both referenced blocks still carry `parent_block = 3` — the split never
rewrote them — so no child moved into the right node points back at the new
right block's reference 6.  (The child-parent rewrite loops exist only in
the root-split arm, lines 440–466; the non-root arm, lines 480–514, has
none.) -/
theorem nonroot_split_stale_parent :
    (run_state [(10,0),(20,0),(30,0),(40,0),(5,0),(6,0),(7,0),(4,0)]).blocks.length = 5 ∧
    (run_state [(10,0),(20,0),(30,0),(40,0),(5,0),(6,0),(7,0),(4,0),(3,1)]).blocks.length = 6 ∧
    ((run_state [(10,0),(20,0),(30,0),(40,0),(5,0),(6,0),(7,0),(4,0),(3,1)]).blocks.getD 5
        node_default).keys_used = 2 ∧
    ((run_state [(10,0),(20,0),(30,0),(40,0),(5,0),(6,0),(7,0),(4,0),(3,1)]).blocks.getD 5
        node_default).block.getD 1 NO_BLOCK = 4 ∧
    ((run_state [(10,0),(20,0),(30,0),(40,0),(5,0),(6,0),(7,0),(4,0),(3,1)]).blocks.getD 5
        node_default).block.getD 2 NO_BLOCK = 5 ∧
    ((run_state [(10,0),(20,0),(30,0),(40,0),(5,0),(6,0),(7,0),(4,0),(3,1)]).blocks.getD 3
        node_default).parent_block = 3 ∧
    ((run_state [(10,0),(20,0),(30,0),(40,0),(5,0),(6,0),(7,0),(4,0),(3,1)]).blocks.getD 4
        node_default).parent_block = 3 ∧
    (3 : Int) ≠ 6 := by
  decide

set_option maxHeartbeats 1000000 in
/-- C4 (amended): a non-root split step writes exactly three records — the
left portion in place over the overflowing node's block, the right portion
appended at end of file, and the parent — and rewrites no other block.  In
particular every child moved into the new right block keeps its previous
record untouched, parent reference included (still naming the old left
block, not the new right block's reference), and the appended right node
itself carries the overflowing node's old parent reference.  Stated for the
configuration of `nonroot_split_stale_parent`: a three-block store with the
overflowing node's record at block 2 (the cursor just past it) and its
parent reference naming block 1 (reference 2); block 0 — which may be any
child of the overflowing node — is universally quantified, as are the
buffer's and all blocks' contents, the split sizes and the uninitialized
temp arrays. -/
theorem nonroot_split_writes_only_three (lk rk : Nat) (tk : List Nat) (tb : List Int)
    (hdr dh : header_t) (n0 n1 n2 bu : node_t) (hpar : bu.parent_block = 2) :
    ((split_step lk rk tk tb
        { hdr := hdr, disk_hdr := dh, blocks := [n0, n1, n2], buf := bu,
          pos := 4 }).2.2.1.blocks.length = 4 ∧
     (split_step lk rk tk tb
        { hdr := hdr, disk_hdr := dh, blocks := [n0, n1, n2], buf := bu,
          pos := 4 }).2.2.1.blocks.getD 0 node_default = n0 ∧
     ((split_step lk rk tk tb
        { hdr := hdr, disk_hdr := dh, blocks := [n0, n1, n2], buf := bu,
          pos := 4 }).2.2.1.blocks.getD 3 node_default).parent_block = 2 ∧
     (split_step lk rk tk tb
        { hdr := hdr, disk_hdr := dh, blocks := [n0, n1, n2], buf := bu,
          pos := 4 }).2.2.1.disk_hdr = dh) := by
  simp [split_step, fseek_cur, fseek_end, fseek_set, ftell, fwrite_node, fread_node, block_index,
    hpar]

/-- Witness for `nonroot_split_writes_only_three`: a concrete three-block
store whose block 2 holds four keys with real children at blocks 0 and 1. -/
theorem nonroot_split_writes_only_three_witness :
    ((split_step 2 1 tk0g tb0g
        { hdr := { tree_order := 4, root_block := 1 },
          disk_hdr := { tree_order := 4, root_block := 1 },
          blocks := [⟨false, 1, [5, 0, 0, 0], [-1, -1, -1, -1, -1], 3⟩,
                     ⟨false, 1, [9, 0, 0, 0], [-1, -1, -1, -1, -1], 3⟩,
                     ⟨false, 4, [3, 5, 7, 9], [1, 2, -1, -1, -1], 2⟩],
          buf := ⟨false, 4, [3, 5, 7, 9], [1, 2, -1, -1, -1], 2⟩,
          pos := 4 }).2.2.1.blocks.length = 4 ∧
     (split_step 2 1 tk0g tb0g
        { hdr := { tree_order := 4, root_block := 1 },
          disk_hdr := { tree_order := 4, root_block := 1 },
          blocks := [⟨false, 1, [5, 0, 0, 0], [-1, -1, -1, -1, -1], 3⟩,
                     ⟨false, 1, [9, 0, 0, 0], [-1, -1, -1, -1, -1], 3⟩,
                     ⟨false, 4, [3, 5, 7, 9], [1, 2, -1, -1, -1], 2⟩],
          buf := ⟨false, 4, [3, 5, 7, 9], [1, 2, -1, -1, -1], 2⟩,
          pos := 4 }).2.2.1.blocks.getD 0 node_default =
       ⟨false, 1, [5, 0, 0, 0], [-1, -1, -1, -1, -1], 3⟩ ∧
     ((split_step 2 1 tk0g tb0g
        { hdr := { tree_order := 4, root_block := 1 },
          disk_hdr := { tree_order := 4, root_block := 1 },
          blocks := [⟨false, 1, [5, 0, 0, 0], [-1, -1, -1, -1, -1], 3⟩,
                     ⟨false, 1, [9, 0, 0, 0], [-1, -1, -1, -1, -1], 3⟩,
                     ⟨false, 4, [3, 5, 7, 9], [1, 2, -1, -1, -1], 2⟩],
          buf := ⟨false, 4, [3, 5, 7, 9], [1, 2, -1, -1, -1], 2⟩,
          pos := 4 }).2.2.1.blocks.getD 3 node_default).parent_block = 2 ∧
     (split_step 2 1 tk0g tb0g
        { hdr := { tree_order := 4, root_block := 1 },
          disk_hdr := { tree_order := 4, root_block := 1 },
          blocks := [⟨false, 1, [5, 0, 0, 0], [-1, -1, -1, -1, -1], 3⟩,
                     ⟨false, 1, [9, 0, 0, 0], [-1, -1, -1, -1, -1], 3⟩,
                     ⟨false, 4, [3, 5, 7, 9], [1, 2, -1, -1, -1], 2⟩],
          buf := ⟨false, 4, [3, 5, 7, 9], [1, 2, -1, -1, -1], 2⟩,
          pos := 4 }).2.2.1.disk_hdr = { tree_order := 4, root_block := 1 }) :=
  nonroot_split_writes_only_three 2 1 tk0g tb0g
    { tree_order := 4, root_block := 1 } { tree_order := 4, root_block := 1 }
    ⟨false, 1, [5, 0, 0, 0], [-1, -1, -1, -1, -1], 3⟩
    ⟨false, 1, [9, 0, 0, 0], [-1, -1, -1, -1, -1], 3⟩
    ⟨false, 4, [3, 5, 7, 9], [1, 2, -1, -1, -1], 2⟩
    ⟨false, 4, [3, 5, 7, 9], [1, 2, -1, -1, -1], 2⟩ (by decide)

/-! ## C5 — key conservation across a split -/

/-- C5 (counterexample): the 7th insert of the sequence 10, 20, 30, 40, 5,
6, 7 fills the non-root node holding keys {5, 6, 40} to `order` keys
{5, 6, 7, 40} and splits it through the non-root arm.  The promoted
separator is `temp_key[0]` — a slot the non-root arm never fills, here
holding the uninitialized value 0.  Before the insert the store holds the
keys [30, 10, 20, 5, 6, 40] (block by block); afterwards
[30, 10, 20, 0, 5, 6, 0]: the keys 7 and 40 have vanished and two
uninitialized 0s appeared, so left + promoted + right is not the multiset
of the overflowing node's `order` keys. -/
theorem nonroot_split_loses_keys :
    store_keys (run_state [(10,0),(20,0),(30,0),(40,0),(5,0),(6,0)]) =
      [30, 10, 20, 5, 6, 40] ∧
    run_statuses [(10,0),(20,0),(30,0),(40,0),(5,0),(6,0),(7,0)] =
      some [.SUCCESS, .SUCCESS, .SUCCESS, .SUCCESS, .SUCCESS, .SUCCESS, .SUCCESS] ∧
    store_keys (run_state [(10,0),(20,0),(30,0),(40,0),(5,0),(6,0),(7,0)]) =
      [30, 10, 20, 0, 5, 6, 0] ∧
    (40 ∉ store_keys (run_state [(10,0),(20,0),(30,0),(40,0),(5,0),(6,0),(7,0)])) ∧
    (7 ∉ store_keys (run_state [(10,0),(20,0),(30,0),(40,0),(5,0),(6,0),(7,0)])) := by
  decide

set_option maxHeartbeats 1000000 in
/-- Helper for C5 and C6: full evaluation of `node_overflow` on the first
root overflow — a store holding a single block, the buffer holding the
overflowing root with `order` keys, parent `NO_BLOCK` and all child slots
`NO_BLOCK` (a leaf root), for either split-size coin and arbitrary contents
of the uninitialized temp arrays.  Two blocks are appended (left at
reference 2, right at reference 3), the root block is rewritten in place
with one key — the median `key[2 - q]` — children 2 and 3 and parent
`NO_BLOCK`, and the in-memory and on-disk headers are untouched. -/
theorem root_leaf_split_eval (q : Nat) (tk : List Nat) (tb : List Int)
    (s : tree_state) (b : node_t) (hq : q ≤ 1)
    (htk : tk.length = 4) (htb : tb.length = 5)
    (hord : s.hdr.tree_order = 4)
    (hpar : s.buf.parent_block = NO_BLOCK)
    (hku : s.buf.keys_used = 4)
    (hkey : s.buf.key.length = 4)
    (hblk : s.buf.block = [-1, -1, -1, -1, -1])
    (hbl : s.blocks = [b])
    (hbkey : b.key.length = 4) (hbblk : b.block.length = 5) :
    (node_overflow 20 q tk tb s).map (fun s' =>
      (s'.blocks.length, s'.hdr, s'.disk_hdr,
       (s'.blocks.getD 0 node_default).keys_used,
       (s'.blocks.getD 0 node_default).parent_block,
       (s'.blocks.getD 0 node_default).key.getD 0 0,
       (s'.blocks.getD 0 node_default).block.getD 0 NO_BLOCK,
       (s'.blocks.getD 0 node_default).block.getD 1 NO_BLOCK,
       node_keys (s'.blocks.getD 1 node_default),
       node_keys (s'.blocks.getD 2 node_default))) =
      some (3, s.hdr, s.disk_hdr, 1, NO_BLOCK, s.buf.key.getD (2 - q) 0, 2, 3,
        s.buf.key.take (2 - q), (s.buf.key.drop (3 - q)).take (1 + q)) := by
  obtain ⟨⟨tord, rb⟩, dh, bl, ⟨il, ku, key, blk, pb⟩, pos⟩ := s
  obtain ⟨bil, bku, bkey, bblk, bpb⟩ := b
  simp only [NO_BLOCK] at hord hpar hku hkey hblk hbl hbkey hbblk
  subst hord hpar hku hblk hbl
  obtain ⟨k0, k1, k2, k3, rfl⟩ := list_len4 hkey
  obtain ⟨t0, t1, t2, t3, rfl⟩ := list_len4 htk
  obtain ⟨u0, u1, u2, u3, u4, rfl⟩ := list_len5 htb
  obtain ⟨c0, c1, c2, c3, rfl⟩ := list_len4 hbkey
  obtain ⟨d0, d1, d2, d3, d4, rfl⟩ := list_len5 hbblk
  interval_cases q <;>
    simp [node_overflow, overflow_loop, child_loop, copy_go, fread_node, fwrite_node, fseek_set,
      fseek_cur, fseek_end, ftell, block_index, NO_BLOCK, node_keys]

/-- C5 (amended): for the first root split — the overflowing leaf root
holding `order` keys — the keys of the resulting left node, the single
promoted separator, and the keys of the resulting right node together are
exactly the `order` keys of the overflowing node, in order, for either
split-size coin.  (By `nonroot_split_loses_keys` this fails for non-root
splits, whose promoted key is read from an uninitialized temp slot and
which lose keys; the promoted-median parent insertion of the non-root arm
uses the shift-insert of `shift_insert` at the position found by comparing
`temp_key[0]` — not the true median — against the parent's keys.) -/
theorem root_leaf_split_conserves_keys (q : Nat) (tk : List Nat) (tb : List Int)
    (s : tree_state) (b : node_t) (hq : q ≤ 1)
    (htk : tk.length = 4) (htb : tb.length = 5)
    (hord : s.hdr.tree_order = 4)
    (hpar : s.buf.parent_block = NO_BLOCK)
    (hku : s.buf.keys_used = 4)
    (hkey : s.buf.key.length = 4)
    (hblk : s.buf.block = [-1, -1, -1, -1, -1])
    (hbl : s.blocks = [b])
    (hbkey : b.key.length = 4) (hbblk : b.block.length = 5) :
    (node_overflow 20 q tk tb s).map (fun s' =>
        node_keys (s'.blocks.getD 1 node_default) ++
        [(s'.blocks.getD 0 node_default).key.getD 0 0] ++
        node_keys (s'.blocks.getD 2 node_default)) =
      some (node_keys s.buf) := by
  have h := root_leaf_split_eval q tk tb s b hq htk htb hord hpar hku hkey hblk hbl hbkey hbblk
  rcases hno : node_overflow 20 q tk tb s with _ | s'
  · rw [hno] at h; cases h
  · rw [hno] at h
    simp only [Option.map_some', Option.some.injEq, Prod.mk.injEq] at h
    obtain ⟨-, -, -, -, -, hmed, -, -, hleft, hright⟩ := h
    simp only [Option.map_some', Option.some.injEq]
    rw [hmed, hleft, hright]
    obtain ⟨k0, k1, k2, k3, hk⟩ := list_len4 hkey
    unfold node_keys
    rw [hku, hk]
    interval_cases q <;> rfl

/-- Witness for `root_leaf_split_conserves_keys`: the first root split of
the tree [10, 20, 30, 40] with the `left = 2 / right = 1` coin. -/
theorem root_leaf_split_conserves_keys_witness :
    (node_overflow 20 0 tk0g tb0g
        { hdr := { tree_order := 4, root_block := 1 },
          disk_hdr := { tree_order := 4, root_block := 1 },
          blocks := [⟨false, 4, [10, 20, 30, 40], [-1, -1, -1, -1, -1], -1⟩],
          buf := ⟨false, 4, [10, 20, 30, 40], [-1, -1, -1, -1, -1], -1⟩,
          pos := 2 }).map (fun s' =>
        node_keys (s'.blocks.getD 1 node_default) ++
        [(s'.blocks.getD 0 node_default).key.getD 0 0] ++
        node_keys (s'.blocks.getD 2 node_default)) =
      some (node_keys (⟨false, 4, [10, 20, 30, 40], [-1, -1, -1, -1, -1], -1⟩ : node_t)) :=
  root_leaf_split_conserves_keys 0 tk0g tb0g _
    ⟨false, 4, [10, 20, 30, 40], [-1, -1, -1, -1, -1], -1⟩ (by decide) (by decide) (by decide)
    (by decide) (by decide) (by decide) (by decide) (by decide) (by decide) (by decide) (by decide)

/-! ## C6 — what a root split does -/

/-- C6 (amended): when the overflowing root is the initial leaf root (all
child slots `NO_BLOCK`), the split appends two blocks (the store grows from
one block to three) and rewrites the root block in place to hold exactly
one key — the promoted median — and exactly two children: references 2 (the
appended left block) and 3 (the appended right block); its parent stays
`NO_BLOCK` and neither the in-memory root reference nor the on-disk header
changes.  (By `second_root_split_overwrites` this fails for a root with
real children: the child-rewrite pass leaves the cursor mid-file, the right
block overwrites the left one, and both root children end up equal.) -/
theorem root_leaf_split_shape (q : Nat) (tk : List Nat) (tb : List Int)
    (s : tree_state) (b : node_t) (hq : q ≤ 1)
    (htk : tk.length = 4) (htb : tb.length = 5)
    (hord : s.hdr.tree_order = 4)
    (hpar : s.buf.parent_block = NO_BLOCK)
    (hku : s.buf.keys_used = 4)
    (hkey : s.buf.key.length = 4)
    (hblk : s.buf.block = [-1, -1, -1, -1, -1])
    (hbl : s.blocks = [b])
    (hbkey : b.key.length = 4) (hbblk : b.block.length = 5) :
    (node_overflow 20 q tk tb s).map (fun s' =>
      (s'.blocks.length,
       (s'.blocks.getD 0 node_default).keys_used,
       (s'.blocks.getD 0 node_default).parent_block,
       (s'.blocks.getD 0 node_default).key.getD 0 0,
       (s'.blocks.getD 0 node_default).block.getD 0 NO_BLOCK,
       (s'.blocks.getD 0 node_default).block.getD 1 NO_BLOCK,
       s'.hdr.root_block, s'.disk_hdr)) =
      some (3, 1, NO_BLOCK, s.buf.key.getD (2 - q) 0, 2, 3, s.hdr.root_block, s.disk_hdr) := by
  have h := root_leaf_split_eval q tk tb s b hq htk htb hord hpar hku hkey hblk hbl hbkey hbblk
  rcases hno : node_overflow 20 q tk tb s with _ | s'
  · rw [hno] at h; cases h
  · rw [hno] at h
    simp only [Option.map_some', Option.some.injEq, Prod.mk.injEq] at h ⊢
    obtain ⟨hlen, hhdr, hdisk, hku0, hpar0, hmed, hb0, hb1, -, -⟩ := h
    exact ⟨hlen, hku0, hpar0, hmed, hb0, hb1, by rw [hhdr], hdisk⟩

/-- Witness for `root_leaf_split_shape`: the first root split of the tree
[10, 20, 30, 40] with the `left = 1 / right = 2` coin. -/
theorem root_leaf_split_shape_witness :
    (node_overflow 20 1 tk0g tb0g
        { hdr := { tree_order := 4, root_block := 1 },
          disk_hdr := { tree_order := 4, root_block := 1 },
          blocks := [⟨false, 4, [10, 20, 30, 40], [-1, -1, -1, -1, -1], -1⟩],
          buf := ⟨false, 4, [10, 20, 30, 40], [-1, -1, -1, -1, -1], -1⟩,
          pos := 2 }).map (fun s' =>
      (s'.blocks.length,
       (s'.blocks.getD 0 node_default).keys_used,
       (s'.blocks.getD 0 node_default).parent_block,
       (s'.blocks.getD 0 node_default).key.getD 0 0,
       (s'.blocks.getD 0 node_default).block.getD 0 NO_BLOCK,
       (s'.blocks.getD 0 node_default).block.getD 1 NO_BLOCK,
       s'.hdr.root_block, s'.disk_hdr)) =
      some (3, 1, NO_BLOCK, 20, 2, 3, 1, { tree_order := 4, root_block := 1 }) :=
  root_leaf_split_shape 1 tk0g tb0g _
    ⟨false, 4, [10, 20, 30, 40], [-1, -1, -1, -1, -1], -1⟩ (by decide) (by decide) (by decide)
    (by decide) (by decide) (by decide) (by decide) (by decide) (by decide) (by decide) (by decide)

/-- C6 (counterexample): the 7th insert of 10, 20, 30, 40, 50, 60, 70
overflows the root a second time, when the root has real children.  The
root-split arm then writes the "right" block at wherever the child-rewrite
pass left the file position — not at end of file — so only ONE block is
appended (3 blocks before, 4 after, not 5), the freshly written left block
is overwritten by the right one, the rewritten root's two child slots both
hold the same reference 4, and the keys 30 and 50 vanish from the store. -/
theorem second_root_split_overwrites :
    (run_state [(10,0),(20,0),(30,0),(40,0),(50,0),(60,0)]).blocks.length = 3 ∧
    (run_state [(10,0),(20,0),(30,0),(40,0),(50,0),(60,0),(70,0)]).blocks.length = 4 ∧
    ((run_state [(10,0),(20,0),(30,0),(40,0),(50,0),(60,0),(70,0)]).blocks.getD 0
        node_default).block.getD 0 NO_BLOCK = 4 ∧
    ((run_state [(10,0),(20,0),(30,0),(40,0),(50,0),(60,0),(70,0)]).blocks.getD 0
        node_default).block.getD 1 NO_BLOCK = 4 ∧
    30 ∈ store_keys (run_state [(10,0),(20,0),(30,0),(40,0),(50,0),(60,0)]) ∧
    (30 ∉ store_keys (run_state [(10,0),(20,0),(30,0),(40,0),(50,0),(60,0),(70,0)])) := by
  decide

end BPlus
